import Mathlib

/-
  Verification of the astng core (tree rebuilder and scope/inference layer)
  against its natural-language specification.  The Python sources are embedded
  shallowly: generators become eager lists, shared mutable inference contexts
  become threaded state, `NotFoundError` / `InferenceError` become `Option` /
  `Except`, and the call depth of recursive generators becomes an explicit
  fuel argument (results are stable once the fuel exceeds the real recursion
  depth, which is how termination of the Python generator is expressed).
-/

set_option maxRecDepth 4000

namespace Astng

/-! ## Class hierarchies for ancestor traversal (`ClassNG.ancestors`) -/

/-- A class hierarchy for ancestor traversal: class `c` has the list
`bases c` of base-class ids; the base statement node of class `c` at position
`j` is identified by the pair `(c, j)`. -/
abbrev BasesFun := Nat → List Nat

/-- Modelled from the spec: the inference step for a base expression (the
`infutils` inference machinery is not among the sources).  Inference of the
base statement `(c, j)` yields the class it names, unless that statement is
already in the in-progress path of the inference context, in which case the
recursion is detected and nothing is yielded; the path of the shared context
only ever grows. -/
def inferBase (bases : BasesFun) (c j : Nat) (path : List (Nat × Nat)) :
    Option (Nat × List (Nat × Nat)) :=
  if (c, j) ∈ path then none
  else
    match (bases c).get? j with
    | some b => some (b, (c, j) :: path)
    | none => none

/-- Embedding of `ClassNG.ancestors` (scoped_nodes.py): prefix depth-first
iteration over inferred base classes.  `js` holds the positions of the
remaining base statements of `c`, `path` is the in-progress path of the
shared inference context, and the fuel argument stands for the recursion
depth of the Python generator.  A base inferring to the class itself is
skipped, and so is a recursively obtained ancestor equal to the class
itself. -/
def ancGo (bases : BasesFun) :
    Nat → Nat → Bool → List Nat → List (Nat × Nat) →
    List Nat × List (Nat × Nat)
  | 0, _, _, _, path => ([], path)
  | _ + 1, _, _, [], path => ([], path)
  | fuel + 1, c, recurs, j :: js, path =>
    match inferBase bases c j path with
    | none => ancGo bases fuel c recurs js path
    | some (b, path1) =>
      if b = c then ancGo bases fuel c recurs js path1
      else if recurs then
        let r1 := ancGo bases fuel b true (List.range (bases b).length) path1
        let r2 := ancGo bases fuel c recurs js r1.2
        (b :: (r1.1.filter (fun g => g ≠ c)) ++ r2.1, r2.2)
      else
        let r := ancGo bases fuel c recurs js path1
        (b :: r.1, r.2)

/-- Embedding of a full `ancestors(recurs)` call on class `c`: iterate over
all of its base statements with a fresh inference context. -/
def ancestors (bases : BasesFun) (fuel : Nat) (c : Nat) (recurs : Bool) :
    List Nat × List (Nat × Nat) :=
  ancGo bases fuel c recurs (List.range (bases c).length) []

/-- The pathological mutually cyclic hierarchy of the claim: class `x`
declares `y` as its only base and class `y` declares `x`. -/
def mutualBases (x y : Nat) : BasesFun :=
  fun c => if c = x then [y] else if c = y then [x] else []

/-! ## Function role computation (`RebuildVisitor.visit_function`) -/

/-- Decorator expressions as scanned by `visit_function` (rebuilder.py): only
bare `Name` decorators are inspected, every other expression shape is
opaque to the role computation. -/
inductive DecoratorExpr where
  | name (s : String)
  | other
deriving DecidableEq

/-- Embedding of the role ("type") computation of
`RebuildVisitor.visit_function` (rebuilder.py): the role starts from the
`Lambda` default, is specialised when the enclosing frame is a class (with
the `__new__` special case), and is then overridden in order by each bare
`Name` decorator called `classmethod` or `staticmethod`. -/
def visit_function_type (frameIsClass : Bool) (fname : String)
    (decorators : Option (List DecoratorExpr)) : String :=
  let t0 := "function"
  let t1 :=
    if frameIsClass then
      if fname = "__new__" then "classmethod" else "method"
    else t0
  match decorators with
  | none => t1
  | some ds =>
    ds.foldl
      (fun t d =>
        match d with
        | .name s => if s = "classmethod" ∨ s = "staticmethod" then s else t
        | .other => t)
      t1

/-- The role override contributed by one decorator expression: a bare name
`classmethod` or `staticmethod`, and nothing else, forces the role. -/
def roleOverride : DecoratorExpr → Option String
  | .name s => if s = "classmethod" ∨ s = "staticmethod" then some s else none
  | .other => none

/-! ## Elif span bookkeeping (`TreeRebuilder.visit_if`) -/

/-- Line-span data of one `(test, body)` pair of a compiler `If` node: the
test expression's `fromlineno` and `tolineno` and the `tolineno` of the last
statement of the branch body. -/
structure IfBranch where
  testFrom : Nat
  testTo : Nat
  bodyLastTo : Nat
deriving DecidableEq

/-- Span fields set on a synthesized `If` node: `fromlineno`, `tolineno` and
`blockstart_tolineno`. -/
structure IfSpan where
  fromlineno : Nat
  tolineno : Nat
  blockstartTolineno : Nat
deriving DecidableEq

/-- Embedding of the span bookkeeping of `TreeRebuilder.visit_if`
(_nodes_compiler.py): for every elif branch (`node.tests[1:]`) a fresh `If`
node is synthesized whose `fromlineno`, `tolineno` and `blockstart_tolineno`
are read from `node.tests[1]` — the index `1` is hard-coded in the source,
whichever elif of the chain is being processed. -/
def visit_if_elifSpans (tests : List IfBranch) : List IfSpan :=
  match tests with
  | [] => []
  | _t0 :: rest =>
    rest.map (fun _elifBranch =>
      match rest.head? with
      | some t1 => ⟨t1.testFrom, t1.bodyLastTo, t1.testTo⟩
      | none => ⟨0, 0, 0⟩)

/-! ## Chained bitwise operator rebuilding (`TreeRebuilder.visit_binop`) -/

/-- Concrete parse-tree expressions from the external compiler front end, as
far as binary-operator rebuilding is concerned: `bitop` mirrors the n-ary
`Bitand` / `Bitor` / `Bitxor` nodes (field `nodes`), `binop` the binary
arithmetic nodes (fields `left`, `right`). -/
inductive CExpr where
  | name (s : String)
  | bitop (op : String) (nodes : List CExpr)
  | binop (op : String) (left right : CExpr)

/-- Rebuilt ASTNG expressions: `BinOp` is always strictly binary. -/
inductive NExpr where
  | name (s : String)
  | binOp (op : String) (left right : NExpr)
deriving DecidableEq

/-- Embedding of `TreeRebuilder.visit_binop` (and `visit_name`)
(_nodes_compiler.py).  For a bit-operator node the right operand is the last
child; with more than two children an intermediate bit-operator node over all
children but the last is synthesized on the fly and visited as if it were
original input, otherwise the left operand is the first child.  The fuel
argument stands for the visitor recursion depth. -/
def visitExpr : Nat → CExpr → Option NExpr
  | 0, _ => none
  | _ + 1, .name s => some (.name s)
  | fuel + 1, .binop op l r => do
    let ln ← visitExpr fuel l
    let rn ← visitExpr fuel r
    return NExpr.binOp op ln rn
  | fuel + 1, .bitop op ns => do
    let lastChild ← ns.getLast?
    let rn ← visitExpr fuel lastChild
    if ns.length > 2 then
      let ln ← visitExpr fuel (.bitop op ns.dropLast)
      return NExpr.binOp op ln rn
    else do
      let firstChild ← ns.head?
      let ln ← visitExpr fuel firstChild
      return NExpr.binOp op ln rn

/-! ## Deferred attribute assignment (`RebuildVisitor.delayed_assattr`) -/

/-- An `AssAttr` node queued for deferred resolution: its identity, the name
of its enclosing frame (`node.frame().name`) and the assigned attribute
name. -/
structure AssAttrNode where
  id : Nat
  frameName : String
  attrname : String
deriving DecidableEq

/-- Attribute dictionary of a scope (`instance_attrs` or `locals`), as seen
by `delayed_assattr`: a total map with the empty list standing for an absent
key (the code only reads through `.setdefault` with an empty default). -/
abbrev AttrMap := String → List AssAttrNode

/-- Store of the attribute dictionaries touched by deferred resolution: for
every scope id its `instance_attrs` and its `locals`. -/
structure AttrStore where
  instAttrs : Nat → AttrMap
  localsMap : Nat → AttrMap

/-- One value produced by inferring the receiver expression of a deferred
attribute assignment (`node.expr.infer()` in rebuilder.py): the YES
sentinel, an exact `Instance` proxy of a class, a strict `Instance` subclass
(a builtin value such as a `Const`, `Tuple` or `List`), some other node with
a `locals` dictionary, or a node without attribute dictionaries (for which
the `AttributeError` branch fires). -/
inductive InferredReceiver where
  | yes
  | instanceOf (cid : Nat)
  | builtinInstance (cid : Nat)
  | localsOf (cid : Nat)
  | bare
deriving DecidableEq

/-- The front-insertion test of `delayed_assattr`: the values list is
non-empty, the enclosing frame of the resolved assignment is `__init__`, and
the first recorded value is not itself bound to `__init__`. -/
def frontInsertCond (node : AssAttrNode) (values : List AssAttrNode) : Bool :=
  match values with
  | [] => false
  | v0 :: _ => node.frameName == "__init__" && !(v0.frameName == "__init__")

/-- Insertion performed by `delayed_assattr` on the value list found for the
attribute name: a node already recorded is left alone, a fresh constructor
assignment goes to the front when no constructor-bound entry is first,
otherwise the node is appended. -/
def delayedInsert (node : AssAttrNode) (values : List AssAttrNode) :
    List AssAttrNode :=
  if node ∈ values then values
  else if frontInsertCond node values then node :: values
  else values ++ [node]

/-- Record `node` under its attribute name in one attribute dictionary
(the `setdefault` / `insert` / `append` block of `delayed_assattr`). -/
def updateAttr (m : AttrMap) (node : AssAttrNode) : AttrMap :=
  Function.update m node.attrname (delayedInsert node (m node.attrname))

/-- Embedding of the per-candidate body of `RebuildVisitor.delayed_assattr`
(rebuilder.py): the YES sentinel is skipped, an exact `Instance` proxy
targets the proxied class's `instance_attrs`, a strict `Instance` subclass
is skipped so as not to pollute the builtin namespace, any other receiver
with a `locals` dictionary targets that dictionary, and a receiver without
attribute dictionaries is skipped through the `AttributeError` branch. -/
def delayedAssattrStep (node : AssAttrNode) (st : AttrStore)
    (c : InferredReceiver) : AttrStore :=
  match c with
  | .yes => st
  | .instanceOf cid =>
    { st with instAttrs :=
        Function.update st.instAttrs cid (updateAttr (st.instAttrs cid) node) }
  | .builtinInstance _ => st
  | .localsOf cid =>
    { st with localsMap :=
        Function.update st.localsMap cid (updateAttr (st.localsMap cid) node) }
  | .bare => st

/-- Embedding of `RebuildVisitor.delayed_assattr`: fold of the per-candidate
step over the values inferred for the receiver expression; an
`InferenceError` while inferring the receiver (`none`) silently skips the
assignment. -/
def delayed_assattr (node : AssAttrNode)
    (inferred : Option (List InferredReceiver)) (st : AttrStore) : AttrStore :=
  match inferred with
  | none => st
  | some cs => cs.foldl (delayedAssattrStep node) st

/-- Whether a receiver candidate already has `node` recorded under the
node's attribute name in the store (trivially true for candidates that
`delayed_assattr` skips). -/
def Recorded (node : AssAttrNode) (st : AttrStore) : InferredReceiver → Prop
  | .instanceOf cid => node ∈ st.instAttrs cid node.attrname
  | .localsOf cid => node ∈ st.localsMap cid node.attrname
  | _ => True

/-- The claim's front-insertion situation, stated on the value list: the
enclosing function of the assignment is the constructor and the sequence is
non-empty with no constructor-bound entry already first. -/
def FrontCase (node : AssAttrNode) (values : List AssAttrNode) : Prop :=
  node.frameName = "__init__" ∧
    ∃ v0 vs, values = v0 :: vs ∧ v0.frameName ≠ "__init__"

/-! ## Module attribute lookup (`ModuleNG.getattr`, `visit_delname`) -/

/-- Nodes recorded in a module's `locals`: deletion bindings, assignment
bindings, synthesized special-attribute values (`cf(...)`, `Dict()`,
`List()`), modules found by the package fallback, and anything else. -/
inductive MemberNode where
  | delName (name : String)
  | assName (name : String)
  | synth
  | importedModule
  | otherNode
deriving DecidableEq

/-- A module's `locals` dictionary: `none` is an absent key (the `KeyError`
branch of `getattr`). -/
abbrev ModLocals := String → Option (List MemberNode)

/-- Module node fields consulted by `getattr`. -/
structure ModuleNode where
  name : String
  package : Bool
  locals : ModLocals

/-- Modelled from the spec: `set_local` (lookup.py is not among the
sources); locals bindings are append-only, a new binding of a name is
appended to the ordered sequence of nodes already binding it. -/
def set_local (locals : ModLocals) (name : String) (n : MemberNode) :
    ModLocals :=
  Function.update locals name (some ((locals name).getD [] ++ [n]))

/-- Embedding of `TreeRebuilder.visit_delname` (_nodes_compiler.py) at module
level (where the scope and its root coincide, so both branches of
`_save_assignment` register in the same locals): a fresh `DelName` node is
produced unconditionally and registered in the scope's locals. -/
def visit_delname (locals : ModLocals) (name : String) :
    MemberNode × ModLocals :=
  (MemberNode.delName name, set_local locals name (MemberNode.delName name))

/-- Names of python special attributes handled by `ModuleNG.getattr`. -/
def moduleSpecialAttributes : List String :=
  ["__name__", "__doc__", "__file__", "__path__", "__dict__"]

/-- Embedding of the body of `ModuleNG.getattr` (scoped_nodes.py), before the
`remove_nodes` wrapper; `none` is `NotFoundError`.  `importResult` stands for
the external module-resolution collaborator consulted by the package
fallback (`import_module` delegates to the manager, which is outside the
sources). -/
def module_getattr_raw (m : ModuleNode) (importResult : Option MemberNode)
    (name : String) : Option (List MemberNode) :=
  if name ∉ moduleSpecialAttributes then
    match m.locals name with
    | some vals => some vals
    | none =>
      if m.package then
        match importResult with
        | some sub => some [sub]
        | none => none
      else none
  else
    if name = "__file__" then
      some (MemberNode.synth :: (m.locals name).getD [])
    else if name = "__path__" then
      if m.package then some (MemberNode.synth :: (m.locals name).getD [])
      else none
    else some (MemberNode.synth :: (m.locals name).getD [])

/-- Whether a node is a `DelName` binding. -/
def isDelName : MemberNode → Bool
  | .delName _ => true
  | _ => false

/-- Embedding of `remove_nodes(getattr, DelName)` applied to
`ModuleNG.getattr` (scoped_nodes.py): `DelName` nodes are filtered from the
raw result and an empty remainder becomes a `NotFoundError`. -/
def module_getattr (m : ModuleNode) (importResult : Option MemberNode)
    (name : String) : Option (List MemberNode) :=
  match module_getattr_raw m importResult name with
  | none => none
  | some vals =>
    match vals.filter (fun n => !isDelName n) with
    | [] => none
    | kept => some kept

/-! ## Class attribute lookup and inference (`ClassNG.getattr`, `igetattr`) -/

/-- A node found by class attribute lookup: an explicit binding carrying the
name of its root module (`node.root().name`, consulted by
`has_dynamic_getattr`), or a synthesized special-attribute value. -/
inductive ClassMember where
  | binding (rootName : String)
  | synth
deriving DecidableEq

/-- ASTNG class node as consulted by the scope-and-inference layer: its name,
the name of its root module, the memoized `_newstyle` flag as left by the
builder, its `locals` and its base classes.  Modelled from the spec: the base
expressions are carried already resolved to the classes they infer to (the
inference of base expressions lives outside the sources), so
`ancestors(recurs=False)` enumerates exactly the `bases` list. -/
inductive ClassNode where
  | mk (name rootName : String) (newstyleCached : Option Bool)
      (locals : List (String × List ClassMember)) (bases : List ClassNode)

/-- Name of a class node. -/
def ClassNode.cname : ClassNode → String
  | .mk n _ _ _ _ => n

/-- Root module name of a class node. -/
def ClassNode.rootName : ClassNode → String
  | .mk _ r _ _ _ => r

/-- Embedding of `ClassNG._newstyle_impl` (scoped_nodes.py): the memoized
flag if the builder set one, else true exactly when some direct ancestor is
new-style. -/
def ClassNode.newstyle : ClassNode → Bool
  | .mk _ _ (some b) _ _ => b
  | .mk _ _ none _ bases => bases.attach.any (fun bp => bp.1.newstyle)
decreasing_by
  have := List.sizeOf_lt_of_mem bp.2
  simp only [ClassNode.mk.sizeOf_spec]
  omega

/-- Names of python special attributes handled by `ClassNG.getattr`. -/
def classSpecialAttributes : List String :=
  ["__name__", "__doc__", "__dict__", "__module__", "__bases__", "__mro__"]

/-- Embedding of `ClassNG.getattr` (scoped_nodes.py); the empty list stands
for `NotFoundError`.  Special attributes yield a synthesized node in front of
any explicit local bindings (except `__mro__` on an old-style class, which is
not found); otherwise direct locals come first, followed by each direct
ancestor's own `getattr` result, an ancestor raising `NotFoundError`
contributing nothing. -/
def ClassNode.getattr : ClassNode → String → List ClassMember
  | c@(.mk _ _ _ locs bases), name =>
    let values := (locs.lookup name).getD []
    if name ∈ classSpecialAttributes then
      if name = "__module__" then ClassMember.synth :: values
      else if name = "__bases__" then ClassMember.synth :: values
      else if name = "__mro__" then
        if c.newstyle then ClassMember.synth :: values else []
      else ClassMember.synth :: values
    else
      values ++ (bases.attach.map (fun bp => ClassNode.getattr bp.1 name)).flatten
decreasing_by
  have := List.sizeOf_lt_of_mem bp.2
  simp only [ClassNode.mk.sizeOf_spec]
  omega

/-- Embedding of `ClassNG.has_dynamic_getattr` (scoped_nodes.py): true for
the hard-coded `optparse.Values` special case, for a class finding
`__getattr__`, and for a found `__getattribute__` whose first node has a root
module other than `__builtin__`. -/
def ClassNode.has_dynamic_getattr (c : ClassNode) : Bool :=
  if c.cname == "Values" && c.rootName == "optparse" then true
  else if !(c.getattr "__getattr__").isEmpty then true
  else
    match (c.getattr "__getattribute__").head? with
    | some (ClassMember.binding root) => !(root == "__builtin__")
    | some ClassMember.synth => false
    | none => false

/-- Values produced by one inference step during class attribute lookup:
the YES sentinel, a `Const` value (which in the sources is both a node and an
`Instance`), a non-constant `Instance` with its proxied class, a `Function`
node with its role, the bound/unbound method views built from functions, and
any other value. -/
inductive IVal where
  | yes
  | constVal
  | inst (cls : ClassNode)
  | func (ftype : String)
  | boundMethod (ftype : String)
  | unboundMethod (ftype : String)
  | otherVal

/-- Embedding of `function_to_method` (scoped_nodes.py): a classmethod binds
to the class, any other non-static function becomes an unbound method, and
everything else passes through unchanged. -/
def function_to_method (n : IVal) (_klass : ClassNode) : IVal :=
  match n with
  | .func t =>
    if t = "classmethod" then .boundMethod t
    else if t ≠ "staticmethod" then .unboundMethod t
    else n
  | _ => n

/-- Embedding of the per-candidate descriptor handling inside
`ClassNG.igetattr` (scoped_nodes.py): a non-`Const` `Instance` whose proxied
class finds `__get__` is replaced by the YES sentinel, other such instances
pass through unchanged, and every other value goes through
`function_to_method`. -/
def igetattrStep (self : ClassNode) (v : IVal) : IVal :=
  match v with
  | .inst cls => if (cls.getattr "__get__").isEmpty then v else .yes
  | _ => function_to_method v self

/-- The `name.startswith` test of `igetattr`, on the character sequence of
the name: true when its first two characters are underscores. -/
def startsWithDunder (name : String) : Bool :=
  match name.data with
  | c1 :: c2 :: _ => c1 == Char.ofNat 95 && c2 == Char.ofNat 95
  | _ => false

/-- Embedding of `ClassNG.igetattr` (scoped_nodes.py).  The one-step
inference of each found node is the oracle `infer1`; modelled from the spec:
`_infer_stmts` (not among the sources) resolves each `get_attribute` result
through one step of expression inference, substituting the YES sentinel for
a candidate that cannot be resolved, and raises `InferenceError` when nothing
at all could be inferred.  `Except.error` stands for `InferenceError`. -/
def ClassNode.igetattr (self : ClassNode) (name : String)
    (infer1 : ClassMember → List IVal) : Except Unit (List IVal) :=
  match self.getattr name with
  | [] =>
    if !(startsWithDunder name) && self.has_dynamic_getattr then
      Except.ok [IVal.yes]
    else Except.error ()
  | vals =>
    match (vals.map infer1).flatten with
    | [] => Except.error ()
    | results => Except.ok (results.map (igetattrStep self))

/-! ## Concrete instances used by counterexamples and witnesses -/

/-- A deferred assignment node from a plain frame `f` assigning attribute
`a`. -/
def c5Node : AssAttrNode := ⟨0, "f", "a"⟩

/-- A store in which `c5Node` is already recorded under its attribute
name in every `instance_attrs` dictionary. -/
def c5Store : AttrStore :=
  { instAttrs := fun _ => fun k => if k = "a" then [c5Node] else []
    localsMap := fun _ => fun _ => [] }

/-- The empty store. -/
def emptyStore : AttrStore :=
  { instAttrs := fun _ => fun _ => []
    localsMap := fun _ => fun _ => [] }

/-- A module with no bindings at all. -/
def c8Module : ModuleNode :=
  { name := "m", package := false, locals := fun _ => none }

/-- A class defining `__getattr__` in its body. -/
def c4Class : ClassNode :=
  ClassNode.mk "C" "m" none [("__getattr__", [ClassMember.binding "m"])] []

/-- A descriptor class: its body defines `__get__`. -/
def c10Desc : ClassNode :=
  ClassNode.mk "D" "m" none [("__get__", [ClassMember.binding "m"])] []

/-- A plain class defining nothing. -/
def c10Plain : ClassNode := ClassNode.mk "P" "m" none [] []

/-- A class whose body binds the attribute `attr`. -/
def c10Self : ClassNode :=
  ClassNode.mk "S" "m" none [("attr", [ClassMember.binding "m"])] []

/-! ## Theorems -/

/-- C1: on the mutually cyclic hierarchy where class `x` declares `y` as its
base and `y` declares `x`, `ancestors` with `recurs = true` on `x` computes
the same answer at every generator depth of at least four — the traversal
terminates — and yields exactly the single class `y`: a class already on the
current traversal path is never revisited. -/
theorem C1_cyclic_ancestors_terminate (x y n : Nat) (hxy : x ≠ y) :
    (ancestors (mutualBases x y) (n + 4) x true).1 = [y] := by
  have hyx : y ≠ x := fun h => hxy h.symm
  simp [ancestors, mutualBases, ancGo, inferBase, hxy, hyx]

/-- C1 (witness): the instantiation with class ids 0 and 1 at depth four. -/
theorem C1_cyclic_ancestors_terminate_witness :
    (ancestors (mutualBases 0 1) 4 0 true).1 = [1] :=
  C1_cyclic_ancestors_terminate 0 1 0 (by decide)

/-- C2 (counterexample): a `__new__` defined directly in a class body but
decorated with the bare name `staticmethod` is rebuilt with role
`staticmethod`, not `classmethod` — the decorator loop runs after the
`__new__` special case and overrides it. -/
theorem C2_counterexample :
    visit_function_type true "__new__"
        (some [DecoratorExpr.name "staticmethod"]) = "staticmethod"
    ∧ "staticmethod" ≠ "classmethod" := by
  exact ⟨rfl, by decide⟩

/-- Helper for C2: prepending an element shifts the default of a last-element
query. -/
theorem getLast?_getD_cons {α : Type} (s t : α) (l : List α) :
    ((s :: l).getLast?).getD t = (l.getLast?).getD s := by
  induction l generalizing s t with
  | nil => rfl
  | cons x xs ih =>
    rw [List.getLast?_cons_cons, ih x t, ih x s]

/-- Helper for C2: the decorator loop of `visit_function` computes the last
role override when one exists and keeps the incoming role otherwise. -/
theorem foldl_roleOverride (ds : List DecoratorExpr) (t : String) :
    ds.foldl
      (fun t d =>
        match d with
        | .name s => if s = "classmethod" ∨ s = "staticmethod" then s else t
        | .other => t)
      t
    = ((ds.filterMap roleOverride).getLast?).getD t := by
  induction ds generalizing t with
  | nil => rfl
  | cons d rest ih =>
    cases d with
    | name s =>
      by_cases h : s = "classmethod" ∨ s = "staticmethod"
      · rw [List.foldl_cons]
        simp only [h, if_true, List.filterMap_cons, roleOverride, if_pos h]
        rw [ih, getLast?_getD_cons]
      · simp [h, roleOverride, ih]
    | other => simp [roleOverride, ih]

/-- C2 (amended): a function named `__new__` defined directly in a class body
is rebuilt with role classmethod unless a decorator that is the bare name
`classmethod` or `staticmethod` is present, in which case the last such
decorator's name becomes the role. -/
theorem C2_new_is_classmethod_unless_overridden
    (decorators : List DecoratorExpr) :
    visit_function_type true "__new__" (some decorators)
      = ((decorators.filterMap roleOverride).getLast?).getD "classmethod"
    ∧ visit_function_type true "__new__" none = "classmethod" := by
  refine ⟨?_, rfl⟩
  simpa [visit_function_type] using foldl_roleOverride decorators "classmethod"

/-- C3 (evaluation at the failing input): in an `if` with two elifs, the
first spanning lines 3-4 (test ending on 3) and the second lines 5-6, both
synthesized conditional nodes carry the first elif's span `(3, 4, 3)`; the
second elif's own span `(5, 6, 5)` is never used, because `visit_if` reads
`node.tests[1]` instead of the current elif. -/
theorem C3_second_elif_gets_first_elif_span :
    visit_if_elifSpans [⟨1, 1, 2⟩, ⟨3, 3, 4⟩, ⟨5, 5, 6⟩]
      = [⟨3, 4, 3⟩, ⟨3, 4, 3⟩]
    ∧ (⟨3, 4, 3⟩ : IfSpan) ≠ ⟨5, 6, 5⟩ := by
  exact ⟨rfl, by decide⟩

/-- C7: rebuilding a three-operand chained bitwise expression of a single
operator kind yields a strictly binary left-leaning tree: the outer node has
the given operator and the third operand on the right, and its left operand
is itself a binary node over the first two operands (at every visitor depth
of at least three). -/
theorem C7_chained_bitop_left_leaning (n : Nat) (op a b c : String) :
    visitExpr (n + 3) (.bitop op [.name a, .name b, .name c])
      = some (.binOp op (.binOp op (.name a) (.name b)) (.name c)) := by
  simp [visitExpr]

/-- Helper for C5: the insertion discipline of `delayed_assattr` for a node
not yet recorded — front insertion exactly in the constructor situation,
append in every other situation. -/
theorem delayedInsert_of_not_mem (node : AssAttrNode)
    (values : List AssAttrNode) (h : node ∉ values) :
    (FrontCase node values → delayedInsert node values = node :: values)
    ∧ (¬ FrontCase node values → delayedInsert node values = values ++ [node]) := by
  constructor
  · rintro ⟨hf, v0, vs, rfl, hv0⟩
    simp [delayedInsert, h, frontInsertCond, beq_iff_eq, hf, hv0]
  · intro hnf
    have hcond : frontInsertCond node values = false := by
      cases values with
      | nil => rfl
      | cons v0 vs =>
        by_cases hf : node.frameName = "__init__"
        · by_cases hv : v0.frameName = "__init__"
          · simp [frontInsertCond, beq_iff_eq, hv]
          · exact absurd ⟨hf, v0, vs, rfl, hv⟩ hnf
        · simp [frontInsertCond, beq_iff_eq, hf]
    simp [delayedInsert, h, hcond]

/-- C5 (counterexample): resolving an assignment node that is already
recorded under its attribute name (its frame is `f`, so the front-insertion
situation does not apply) leaves the sequence unchanged instead of appending
the node at the end as the claim demands for every non-front case. -/
theorem C5_counterexample :
    ((delayedAssattrStep c5Node c5Store (.instanceOf 0)).instAttrs 0) "a"
        = [c5Node]
    ∧ [c5Node] ≠ [c5Node, c5Node] := by
  refine ⟨?_, by decide⟩
  simp [delayedAssattrStep, c5Store, updateAttr, delayedInsert, c5Node]

/-- C5 (amended): resolving a deferred attribute assignment whose node is not
yet recorded under its attribute name inserts it at the front of the
candidate's sequence exactly when the enclosing function is the constructor
and the sequence is non-empty with no constructor-bound entry already first,
and appends it at the end in every other case; a node already recorded
leaves the sequence unchanged. -/
theorem C5_front_insert_iff_constructor (node : AssAttrNode) (cid : Nat)
    (st : AttrStore)
    (h1 : node ∉ st.instAttrs cid node.attrname)
    (h2 : node ∉ st.localsMap cid node.attrname) :
    ((FrontCase node (st.instAttrs cid node.attrname) →
        ((delayedAssattrStep node st (.instanceOf cid)).instAttrs cid)
            node.attrname
          = node :: st.instAttrs cid node.attrname)
      ∧ (¬ FrontCase node (st.instAttrs cid node.attrname) →
        ((delayedAssattrStep node st (.instanceOf cid)).instAttrs cid)
            node.attrname
          = st.instAttrs cid node.attrname ++ [node]))
    ∧ ((FrontCase node (st.localsMap cid node.attrname) →
        ((delayedAssattrStep node st (.localsOf cid)).localsMap cid)
            node.attrname
          = node :: st.localsMap cid node.attrname)
      ∧ (¬ FrontCase node (st.localsMap cid node.attrname) →
        ((delayedAssattrStep node st (.localsOf cid)).localsMap cid)
            node.attrname
          = st.localsMap cid node.attrname ++ [node])) := by
  constructor
  · have hins := delayedInsert_of_not_mem node (st.instAttrs cid node.attrname) h1
    constructor
    · intro hf
      simp only [delayedAssattrStep, Function.update_same, updateAttr]
      exact hins.1 hf
    · intro hf
      simp only [delayedAssattrStep, Function.update_same, updateAttr]
      exact hins.2 hf
  · have hins := delayedInsert_of_not_mem node (st.localsMap cid node.attrname) h2
    constructor
    · intro hf
      simp only [delayedAssattrStep, Function.update_same, updateAttr]
      exact hins.1 hf
    · intro hf
      simp only [delayedAssattrStep, Function.update_same, updateAttr]
      exact hins.2 hf

/-- C5 (witness for the amended claim): a fresh assignment from a plain frame
against an empty store ends up appended, i.e. as the single recorded
entry. -/
theorem C5_front_insert_iff_constructor_witness :
    ((delayedAssattrStep c5Node emptyStore (.instanceOf 0)).instAttrs 0) "a"
      = [c5Node] := by
  have h := C5_front_insert_iff_constructor c5Node 0 emptyStore
      (by simp [emptyStore]) (by simp [emptyStore])
  have h2 := h.1.2 (by rintro ⟨_, v0, vs, hcons, _⟩; simp [emptyStore] at hcons)
  simpa [emptyStore, c5Node] using h2

/-- Helper for C6: the node being resolved is always a member of the value
list produced by the insertion discipline. -/
theorem mem_delayedInsert_self (node : AssAttrNode)
    (values : List AssAttrNode) : node ∈ delayedInsert node values := by
  by_cases h : node ∈ values
  · simp [delayedInsert, h]
  · by_cases hf : frontInsertCond node values <;> simp [delayedInsert, h, hf]

/-- Helper for C6: after processing a candidate, the node is recorded for
that candidate. -/
theorem recorded_step_self (node : AssAttrNode) (st : AttrStore)
    (c : InferredReceiver) :
    Recorded node (delayedAssattrStep node st c) c := by
  cases c <;>
    simp [Recorded, delayedAssattrStep, updateAttr, mem_delayedInsert_self]

/-- Helper for C6: processing any candidate preserves recordedness for every
candidate. -/
theorem recorded_step_mono (node : AssAttrNode) (st : AttrStore)
    (c c2 : InferredReceiver) (h : Recorded node st c) :
    Recorded node (delayedAssattrStep node st c2) c := by
  cases c with
  | instanceOf cid =>
    cases c2 with
    | instanceOf cid2 =>
      simp only [Recorded] at h ⊢
      rcases eq_or_ne cid cid2 with rfl | hne
      · simp [delayedAssattrStep, updateAttr, mem_delayedInsert_self]
      · simpa [delayedAssattrStep, Function.update_noteq hne] using h
    | yes => exact h
    | builtinInstance cid2 => exact h
    | localsOf cid2 => exact h
    | bare => exact h
  | localsOf cid =>
    cases c2 with
    | localsOf cid2 =>
      simp only [Recorded] at h ⊢
      rcases eq_or_ne cid cid2 with rfl | hne
      · simp [delayedAssattrStep, updateAttr, mem_delayedInsert_self]
      · simpa [delayedAssattrStep, Function.update_noteq hne] using h
    | yes => exact h
    | builtinInstance cid2 => exact h
    | instanceOf cid2 => exact h
    | bare => exact h
  | yes => trivial
  | builtinInstance cid => trivial
  | bare => trivial

/-- Helper for C6: processing a candidate for which the node is already
recorded changes nothing. -/
theorem recorded_step_id (node : AssAttrNode) (st : AttrStore)
    (c : InferredReceiver) (h : Recorded node st c) :
    delayedAssattrStep node st c = st := by
  cases c with
  | instanceOf cid =>
    simp only [Recorded] at h
    simp [delayedAssattrStep, updateAttr, delayedInsert, h,
      Function.update_eq_self]
  | localsOf cid =>
    simp only [Recorded] at h
    simp [delayedAssattrStep, updateAttr, delayedInsert, h,
      Function.update_eq_self]
  | yes => rfl
  | builtinInstance cid => rfl
  | bare => rfl

/-- Helper for C6: a whole resolution pass preserves recordedness. -/
theorem recorded_foldl_mono (node : AssAttrNode)
    (cs : List InferredReceiver) (st : AttrStore) (c : InferredReceiver)
    (h : Recorded node st c) :
    Recorded node (cs.foldl (delayedAssattrStep node) st) c := by
  induction cs generalizing st with
  | nil => simpa using h
  | cons c2 rest ih => exact ih _ (recorded_step_mono node st c c2 h)

/-- Helper for C6: after a resolution pass, the node is recorded for every
candidate of that pass. -/
theorem recorded_after_run (node : AssAttrNode)
    (cs : List InferredReceiver) (st : AttrStore) (c : InferredReceiver)
    (hc : c ∈ cs) :
    Recorded node (cs.foldl (delayedAssattrStep node) st) c := by
  induction cs generalizing st with
  | nil => cases hc
  | cons c2 rest ih =>
    rcases List.mem_cons.mp hc with rfl | hmem
    · exact recorded_foldl_mono node rest _ c (recorded_step_self node st c)
    · exact ih _ hmem

/-- Helper for C6: a resolution pass over candidates for which the node is
already recorded is the identity. -/
theorem foldl_id_of_recorded (node : AssAttrNode)
    (cs : List InferredReceiver) (st : AttrStore)
    (h : ∀ c ∈ cs, Recorded node st c) :
    cs.foldl (delayedAssattrStep node) st = st := by
  induction cs with
  | nil => rfl
  | cons c2 rest ih =>
    rw [List.foldl_cons, recorded_step_id node st c2 (h c2 (by simp))]
    exact ih (fun c hc => h c (by simp [hc]))

/-- C6: deferred attribute resolution run a second time on the same
assignment node with the same inferred receivers leaves every
`instance_attrs` and `locals` map unchanged — a node already recorded under
its attribute name is never inserted again, so the pass is idempotent. -/
theorem C6_delayed_assattr_idempotent (node : AssAttrNode)
    (inferred : Option (List InferredReceiver)) (st : AttrStore) :
    delayed_assattr node inferred (delayed_assattr node inferred st)
      = delayed_assattr node inferred st := by
  cases inferred with
  | none => rfl
  | some cs =>
    simp only [delayed_assattr]
    exact foldl_id_of_recorded node cs _
      (fun c hc => recorded_after_run node cs st c hc)

/-- C9: a receiver candidate inferred to an instance of a builtin value kind
(a strict subclass of the generic instance proxy, such as a constant, tuple
or list value) is skipped entirely by deferred attribute resolution:
dropping it from the candidate list gives the same store, so it contributes
no entry to any `instance_attrs` or `locals` map. -/
theorem C9_builtin_instance_skipped (node : AssAttrNode) (cid : Nat)
    (cs1 cs2 : List InferredReceiver) (st : AttrStore) :
    delayed_assattr node
        (some (cs1 ++ InferredReceiver.builtinInstance cid :: cs2)) st
      = delayed_assattr node (some (cs1 ++ cs2)) st := by
  simp [delayed_assattr, List.foldl_append, delayedAssattrStep]

/-- C8: deleting a never-assigned, non-special name in a module scope still
produces a deletion node (the rebuilder does not raise), and a subsequent
`getattr` query for that name raises the not-found error because the
`DelName` binding is filtered out of the lookup result. -/
theorem C8_del_unassigned_then_not_found (m : ModuleNode)
    (importResult : Option MemberNode) (name : String)
    (hspec : name ∉ moduleSpecialAttributes)
    (hunassigned : m.locals name = none) :
    (visit_delname m.locals name).1 = MemberNode.delName name
    ∧ module_getattr { m with locals := (visit_delname m.locals name).2 }
        importResult name = none := by
  refine ⟨rfl, ?_⟩
  simp [module_getattr, module_getattr_raw, visit_delname, set_local,
    hspec, hunassigned, isDelName]

/-- C8 (witness): deleting `x` in an empty module and querying it. -/
theorem C8_del_unassigned_then_not_found_witness :
    module_getattr
        { c8Module with locals := (visit_delname c8Module.locals "x").2 }
        none "x" = none :=
  (C8_del_unassigned_then_not_found c8Module none "x" (by decide) rfl).2

/-- C4 (counterexample): a class defining `__getattr__` (so
`has_dynamic_getattr` holds) still raises the inference error when the
looked-up name starts with a double underscore: `igetattr` of `__missing__`
fails instead of yielding the unknown sentinel. -/
theorem C4_counterexample :
    c4Class.has_dynamic_getattr = true
    ∧ c4Class.igetattr "__missing__" (fun _ => [IVal.otherVal])
        = Except.error () := by
  have hga : c4Class.getattr "__getattr__" = [ClassMember.binding "m"] := by
    simp +decide [ClassNode.getattr, c4Class, classSpecialAttributes]
  have hgab : c4Class.getattr "__getattribute__" = [] := by
    simp +decide [ClassNode.getattr, c4Class, classSpecialAttributes]
  have hdyn : c4Class.has_dynamic_getattr = true := by
    simp [ClassNode.has_dynamic_getattr, hga]
  refine ⟨hdyn, ?_⟩
  have hmiss : c4Class.getattr "__missing__" = [] := by
    simp +decide [ClassNode.getattr, c4Class, classSpecialAttributes]
  simp +decide [ClassNode.igetattr, hmiss]

/-- C4 (amended): when inferred class attribute lookup finds nothing but the
class has a dynamic attribute hook (`__getattr__` or a custom
`__getattribute__`, as decided by `has_dynamic_getattr`), `igetattr` yields
the unknown sentinel instead of raising — provided the requested name does
not start with a double underscore; a name starting with `__` still raises
even when the hook exists. -/
theorem C4_dynamic_getattr_yields_unknown (c : ClassNode) (name : String)
    (infer1 : ClassMember → List IVal)
    (h1 : c.getattr name = [])
    (h2 : startsWithDunder name = false)
    (h3 : c.has_dynamic_getattr = true) :
    c.igetattr name infer1 = Except.ok [IVal.yes] := by
  simp [ClassNode.igetattr, h1, h2, h3]

/-- C4 (witness): looking up the undefined plain name `color` on the class
with a `__getattr__` hook yields the unknown sentinel. -/
theorem C4_dynamic_getattr_yields_unknown_witness :
    c4Class.igetattr "color" (fun _ => []) = Except.ok [IVal.yes] := by
  have hcolor : c4Class.getattr "color" = [] := by
    simp +decide [ClassNode.getattr, c4Class, classSpecialAttributes]
  have hga : c4Class.getattr "__getattr__" = [ClassMember.binding "m"] := by
    simp +decide [ClassNode.getattr, c4Class, classSpecialAttributes]
  exact C4_dynamic_getattr_yields_unknown c4Class "color" (fun _ => [])
    hcolor (by decide)
    (by simp [ClassNode.has_dynamic_getattr, hga])

/-- C10: when class attribute lookup succeeds and one-step inference yields
at least one candidate, `igetattr` yields exactly the candidates mapped
through the descriptor step, and that step replaces every non-constant
instance whose class finds `__get__` by the unknown sentinel while yielding
instances of non-descriptor classes unchanged. -/
theorem C10_descriptors_replaced_by_unknown (self : ClassNode)
    (name : String) (infer1 : ClassMember → List IVal)
    (h : ((self.getattr name).map infer1).flatten ≠ []) :
    self.igetattr name infer1
      = Except.ok
          ((((self.getattr name).map infer1).flatten).map (igetattrStep self))
    ∧ (∀ cls : ClassNode, cls.getattr "__get__" ≠ [] →
        igetattrStep self (IVal.inst cls) = IVal.yes)
    ∧ (∀ cls : ClassNode, cls.getattr "__get__" = [] →
        igetattrStep self (IVal.inst cls) = IVal.inst cls) := by
  refine ⟨?_, ?_, ?_⟩
  · cases hv : self.getattr name with
    | nil => simp [hv] at h
    | cons v vs =>
      rw [hv] at h
      simp only [ClassNode.igetattr, hv]
  · intro cls hg
    have : (cls.getattr "__get__").isEmpty = false := by
      simpa [List.isEmpty_iff] using hg
    simp [igetattrStep, this]
  · intro cls hg
    simp [igetattrStep, hg]

/-- C10 (witness): looking up `attr` when inference produces an instance of a
descriptor class and an instance of a plain class yields the unknown
sentinel for the former and the untouched instance for the latter. -/
theorem C10_descriptors_replaced_by_unknown_witness :
    c10Self.igetattr "attr"
        (fun _ => [IVal.inst c10Desc, IVal.inst c10Plain])
      = Except.ok [IVal.yes, IVal.inst c10Plain] := by
  have hget : c10Self.getattr "attr" = [ClassMember.binding "m"] := by
    simp +decide [ClassNode.getattr, c10Self, classSpecialAttributes]
  have hdesc : c10Desc.getattr "__get__" = [ClassMember.binding "m"] := by
    simp +decide [ClassNode.getattr, c10Desc, classSpecialAttributes]
  have hplain : c10Plain.getattr "__get__" = [] := by
    simp +decide [ClassNode.getattr, c10Plain, classSpecialAttributes]
  have h := C10_descriptors_replaced_by_unknown c10Self "attr"
      (fun _ => [IVal.inst c10Desc, IVal.inst c10Plain])
      (by rw [hget]; simp)
  rw [h.1, hget]
  simp [igetattrStep, hdesc, hplain]

end Astng
